import Mathlib

/-!
Shallow embedding of `src/lib.rs` of the `mqrcode` crate: the segmentation
routine `MultiQrCode::with_slack`, its default-slack wrapper `MultiQrCode::new`,
the `Version::to_index` helper, and the constant tables `QR_DATA_LENGTHS` and
`QR_VERSION_SLACK`.

Modelling conventions:
* Rust `usize` values are `Nat`; the `i16` payload of `Version` is `Int`
  (casts to `usize` are made explicit through `usize_cast`).
* The external `qrcode` crate's encoder `QrCode::with_version` is abstracted
  as a parameter `enc : Encoder`; `none` means the encoder accepted the chunk
  and `some e` means it failed with error `e`.  The opaque `QrCode` value is
  modelled by the byte slice handed to the encoder (index byte followed by the
  data slice), which is exactly the information the specification's claims
  speak about.
* A Rust panic or abort (out-of-bounds indexing, usize underflow in a debug
  build / capacity-overflow abort in a release build, `chunks(0)`) is the
  `Outcome.panic` constructor: the call never returns a `Result` value.
-/

set_option maxRecDepth 100000

namespace Mqrcode

/-- Version enum of the qrcode crate: `Version::Normal(i16)` or `Version::Micro(i16)`. -/
inductive Version where
  | Normal (x : Int)
  | Micro (x : Int)
deriving DecidableEq

/-- EcLevel enum of the qrcode crate, discriminants L=0, M=1, Q=2, H=3. -/
inductive EcLevel where
  | L
  | M
  | Q
  | H
deriving DecidableEq

/-- Rust `ec as usize` on the `EcLevel` enum (its discriminant). -/
def EcLevel.toNat : EcLevel → Nat
  | .L => 0
  | .M => 1
  | .Q => 2
  | .H => 3

/-- QrError enum of the qrcode crate (the error type `with_slack` returns). -/
inductive QrError where
  | DataTooLong
  | InvalidVersion
  | UnsupportedCharacterSet
  | InvalidEciDesignator
  | InvalidCharacter
deriving DecidableEq

/-- Result of running a Rust function that returns `Result<α, QrError>` but can
also panic or abort: `ok`, `err`, or `panic` (the call never returns). -/
inductive Outcome (α : Type) where
  | ok (val : α)
  | err (e : QrError)
  | panic
deriving DecidableEq

/-- True exactly on `Outcome.ok`. -/
def Outcome.isOk {α : Type} : Outcome α → Bool
  | .ok _ => true
  | _ => false

/-- True exactly on `Outcome.err`. -/
def Outcome.isErr {α : Type} : Outcome α → Bool
  | .err _ => true
  | _ => false

/-- The list of produced symbols (chunk byte slices) of a successful outcome. -/
def Outcome.codes : Outcome (List (List Nat)) → List (List Nat)
  | .ok cs => cs
  | _ => []

/-- Rust cast of an integer to `usize` (64-bit): reduce modulo `2^64`
(the literal below is `2^64`). -/
def usize_cast (x : Int) : Nat := (x % 18446744073709551616).toNat

/-- Embedding of `Version::to_index` from `src/lib.rs`:
`Normal(x) => x-1`, `Micro(x) => x+39`, then cast `as usize`. -/
def Version.to_index : Version → Nat
  | .Normal x => usize_cast (x - 1)
  | .Micro x => usize_cast (x + 39)

/-- Whether the version is of the `Micro` family (`if let Version::Micro(_)`). -/
def Version.isMicro : Version → Bool
  | .Micro _ => true
  | .Normal _ => false

/-- Embedding of the constant `QR_DATA_LENGTHS: [[usize; 4]; 40]` from
`src/lib.rs`, row = version index, column = ec level discriminant. -/
def QR_DATA_LENGTHS : List (List Nat) := [
    [19, 16, 13, 9],
    [34, 28, 22, 16],
    [55, 44, 34, 26],
    [80, 64, 48, 36],
    [108, 86, 62, 46],
    [136, 108, 76, 60],
    [156, 124, 88, 66],
    [194, 154, 110, 86],
    [232, 182, 132, 100],
    [274, 216, 154, 122],
    [324, 254, 180, 140],
    [370, 290, 206, 158],
    [428, 334, 244, 180],
    [461, 365, 261, 197],
    [523, 415, 295, 223],
    [589, 453, 325, 253],
    [647, 507, 367, 283],
    [721, 563, 397, 313],
    [795, 627, 445, 341],
    [861, 669, 485, 385],
    [932, 714, 512, 406],
    [1006, 782, 568, 442],
    [1094, 860, 614, 464],
    [1174, 914, 664, 514],
    [1276, 1000, 718, 538],
    [1370, 1062, 754, 596],
    [1468, 1128, 808, 628],
    [1531, 1193, 871, 661],
    [1631, 1267, 911, 701],
    [1735, 1373, 985, 745],
    [1843, 1455, 1033, 793],
    [1955, 1541, 1115, 845],
    [2071, 1631, 1171, 901],
    [2191, 1725, 1231, 961],
    [2306, 1812, 1286, 986],
    [2434, 1914, 1354, 1054],
    [2566, 1992, 1426, 1096],
    [2702, 2102, 1502, 1142],
    [2812, 2216, 1582, 1222],
    [2956, 2334, 1666, 1276]
  ]

/-- Embedding of the constant `QR_VERSION_SLACK: [usize; 40]` from `src/lib.rs`:
slack 2 for versions 1-9, slack 3 for versions 10-40. -/
def QR_VERSION_SLACK : List Nat := [
    2, 2, 2, 2, 2, 2, 2, 2, 2,
    3, 3, 3, 3, 3, 3, 3, 3, 3, 3, 3, 3, 3, 3, 3, 3, 3, 3, 3, 3, 3, 3, 3, 3, 3, 3, 3, 3, 3, 3, 3
  ]

/-- Embedding of the expression `QR_DATA_LENGTHS[version.to_index()][ec as usize]`
in `with_slack`: `none` models the out-of-bounds panic of Rust array indexing
when `to_index` falls outside the 40 rows (the `ec` column index is always in
bounds since `EcLevel` has exactly 4 variants). -/
def capacityLookup (version : Version) (ec : EcLevel) : Option Nat :=
  if version.to_index < QR_DATA_LENGTHS.length then
    some ((QR_DATA_LENGTHS.getD version.to_index []).getD ec.toNat 0)
  else
    none

/-- Abstraction of the external encoder `QrCode::with_version(bytes, version, ec)`:
`none` = accepted, `some e` = rejected with `e`. -/
def Encoder : Type := List Nat → Version → EcLevel → Option QrError

/-- Embedding of Rust `data.chunks(n)` (for `n ≥ 1`), with explicit fuel so the
function reduces by kernel computation.  With fuel `≥ l.length` and `n ≥ 1`
this splits `l` into consecutive pieces of length `n`, the last piece holding
the (nonempty) remainder, and an empty `l` yields no pieces at all. -/
def chunksFuel : Nat → Nat → List Nat → List (List Nat)
  | 0, _, _ => []
  | fuel + 1, n, l => if l.isEmpty then [] else l.take n :: chunksFuel fuel n (l.drop n)

/-- Rust `data.chunks(n)` for `n ≥ 1` (the `n = 0` panic is handled by the
caller `with_slack` before this function is ever used). -/
def chunksList (n : Nat) (l : List Nat) : List (List Nat) := chunksFuel l.length n l

/-- The chunk byte slices built by the `for (i, part) in data.chunks(..).enumerate()`
loop: chunk `i` is the single byte `i as u8` followed by the part. -/
def tagChunks : Nat → List (List Nat) → List (List Nat)
  | _, [] => []
  | i, p :: ps => ((i % 256) :: p) :: tagChunks (i + 1) ps

/-- Embedding of the encode loop of `with_slack`: for each part in order, build
the chunk (index byte `i as u8` followed by the part) and invoke the encoder;
the `?` operator returns the encoder's error immediately, discarding all
previously collected results. -/
def encodeChunks (enc : Encoder) (version : Version) (ec : EcLevel) :
    Nat → List (List Nat) → Outcome (List (List Nat))
  | _, [] => .ok []
  | i, p :: ps =>
    match enc ((i % 256) :: p) version ec with
    | some e => .err e
    | none =>
      match encodeChunks enc version ec (i + 1) ps with
      | .ok cs => .ok (((i % 256) :: p) :: cs)
      | r => r

/-- Embedding of `MultiQrCode::with_slack` from `src/lib.rs`.
Panic cases, in source order:
* `capacityLookup = none`: `QR_DATA_LENGTHS[version.to_index()]` is out of
  bounds (versions `Normal(x)` with `x` outside `1..=40`);
* `total < 1 + slack`: the `usize` subtraction `qr_size_total - (1 + slack)`
  underflows (panic in a debug build; in a release build it wraps and the
  subsequent `vec![0; 1 + qr_size_data]` aborts on capacity overflow);
* `total = 1 + slack`: `qr_size_data = 0` and `data.chunks(0)` panics. -/
def with_slack (enc : Encoder) (data : List Nat) (version : Version)
    (ec : EcLevel) (slack : Nat) : Outcome (List (List Nat)) :=
  if version.isMicro then .err .InvalidVersion
  else
    match capacityLookup version ec with
    | none => .panic
    | some total =>
      if total < 1 + slack then .panic
      else if total - (1 + slack) = 0 then .panic
      else encodeChunks enc version ec 0 (chunksList (total - (1 + slack)) data)

/-- Embedding of `MultiQrCode::new` from `src/lib.rs`: the argument
`QR_VERSION_SLACK[version.to_index()]` is evaluated before `with_slack` runs,
so an index outside the 40-entry slack table panics first. -/
def new (enc : Encoder) (data : List Nat) (version : Version) (ec : EcLevel) :
    Outcome (List (List Nat)) :=
  if version.to_index < QR_VERSION_SLACK.length then
    with_slack enc data version ec (QR_VERSION_SLACK.getD version.to_index 0)
  else
    .panic

/-- The encoder that accepts every chunk. -/
def encAll : Encoder := fun _ _ _ => none

/-- An encoder that rejects exactly the chunks whose first data byte is `9`. -/
def encRejects9 : Encoder := fun c _ _ =>
  if c.getD 1 0 = 9 then some .DataTooLong else none

/-- Index byte of a chunk (its leading byte). -/
def chunkIdx (c : List Nat) : Nat := c.headD 0

/-- Stable insertion of a chunk into a list sorted by index byte. -/
def insertByIdx (c : List Nat) : List (List Nat) → List (List Nat)
  | [] => [c]
  | d :: ds => if chunkIdx c ≤ chunkIdx d then c :: d :: ds else d :: insertByIdx c ds

/-- Stable sort of chunks by ascending index byte ("ascending index order"). -/
def sortByIdx : List (List Nat) → List (List Nat)
  | [] => []
  | c :: cs => insertByIdx c (sortByIdx cs)

/-- Payload of 257 bytes: 256 zero bytes followed by a single byte `1`.  At
version 1, EC level L and slack 17 the per-chunk data size is 1, so this
payload is split into 257 chunks and the one-byte chunk counter wraps. -/
def bigPayload : List Nat := List.replicate 256 0 ++ [1]

theorem chunksFuel_flatten (n : Nat) (hn : 1 ≤ n) :
    ∀ (fuel : Nat) (l : List Nat), l.length ≤ fuel → (chunksFuel fuel n l).flatten = l := by
  intro fuel
  induction fuel with
  | zero =>
    intro l hl
    cases l with
    | nil => rfl
    | cons a as => simp at hl
  | succ fuel ih =>
    intro l hl
    cases he : l.isEmpty with
    | true =>
      rw [List.isEmpty_iff.mp he]
      simp [chunksFuel]
    | false =>
      have hlen : 0 < l.length := by
        cases l with
        | nil => simp at he
        | cons a as => simp
      have hdrop : (l.drop n).length ≤ fuel := by
        rw [List.length_drop]; omega
      simp only [chunksFuel, he, Bool.false_eq_true, if_false, List.flatten_cons]
      rw [ih (l.drop n) hdrop, List.take_append_drop]

theorem chunksFuel_length_le (n : Nat) :
    ∀ (fuel : Nat) (l p : List Nat), p ∈ chunksFuel fuel n l → p.length ≤ n := by
  intro fuel
  induction fuel with
  | zero => intro l p hp; simp [chunksFuel] at hp
  | succ fuel ih =>
    intro l p hp
    cases he : l.isEmpty with
    | true => rw [chunksFuel, he] at hp; simp at hp
    | false =>
      rw [chunksFuel, he] at hp
      simp only [Bool.false_eq_true, if_false, List.mem_cons] at hp
      cases hp with
      | inl h => rw [h, List.length_take]; omega
      | inr h => exact ih (l.drop n) p h

theorem tagChunks_length : ∀ (i : Nat) (ps : List (List Nat)),
    (tagChunks i ps).length = ps.length := by
  intro i ps
  induction ps generalizing i with
  | nil => rfl
  | cons p ps ih => simp [tagChunks, ih]

theorem tagChunks_map_tail_flatten : ∀ (i : Nat) (ps : List (List Nat)),
    ((tagChunks i ps).map List.tail).flatten = ps.flatten := by
  intro i ps
  induction ps generalizing i with
  | nil => rfl
  | cons p ps ih => simp [tagChunks, List.flatten_cons, ih]

theorem tagChunks_map_chunkIdx : ∀ (i : Nat) (ps : List (List Nat)),
    (tagChunks i ps).map chunkIdx = (List.range' i ps.length).map (fun k => k % 256) := by
  intro i ps
  induction ps generalizing i with
  | nil => rfl
  | cons p ps ih =>
    simp only [tagChunks, List.map_cons, List.length_cons, List.range'_succ, ih]
    rfl

theorem tagChunks_mem_length : ∀ (i : Nat) (ps : List (List Nat)) (c : List Nat),
    c ∈ tagChunks i ps → ∃ p, p ∈ ps ∧ c.length = p.length + 1 := by
  intro i ps
  induction ps generalizing i with
  | nil => intro c hc; simp [tagChunks] at hc
  | cons p ps ih =>
    intro c hc
    simp only [tagChunks, List.mem_cons] at hc
    cases hc with
    | inl h => exact ⟨p, List.mem_cons_self p ps, by rw [h]; rfl⟩
    | inr h =>
      obtain ⟨q, hq, hlen⟩ := ih (i + 1) c h
      exact ⟨q, List.mem_cons_of_mem p hq, hlen⟩

theorem encodeChunks_ok (enc : Encoder) (version : Version) (ec : EcLevel) :
    ∀ (i : Nat) (ps cs : List (List Nat)),
      encodeChunks enc version ec i ps = .ok cs → cs = tagChunks i ps := by
  intro i ps
  induction ps generalizing i with
  | nil =>
    intro cs h
    rw [encodeChunks] at h
    cases h
    rfl
  | cons p ps ih =>
    intro cs h
    rw [encodeChunks] at h
    cases henc : enc ((i % 256) :: p) version ec with
    | some e => rw [henc] at h; cases h
    | none =>
      rw [henc] at h
      cases hrec : encodeChunks enc version ec (i + 1) ps with
      | ok cs' =>
        rw [hrec] at h
        cases h
        rw [tagChunks, ih (i + 1) cs' hrec]
      | err e => rw [hrec] at h; cases h
      | panic => rw [hrec] at h; cases h

theorem sortByIdx_of_pairwise :
    ∀ (l : List (List Nat)), l.Pairwise (fun a b => chunkIdx a ≤ chunkIdx b) →
      sortByIdx l = l := by
  intro l
  induction l with
  | nil => intro _; rfl
  | cons c cs ih =>
    intro hp
    rw [List.pairwise_cons] at hp
    rw [sortByIdx, ih hp.2]
    cases cs with
    | nil => rfl
    | cons d ds =>
      rw [insertByIdx, if_pos (hp.1 d (List.mem_cons_self d ds))]

theorem with_slack_ok (enc : Encoder) (data : List Nat) (version : Version)
    (ec : EcLevel) (slack : Nat) (cs : List (List Nat))
    (h : with_slack enc data version ec slack = .ok cs) :
    ∃ total, version.isMicro = false ∧ capacityLookup version ec = some total ∧
      1 + slack < total ∧
      cs = tagChunks 0 (chunksList (total - (1 + slack)) data) := by
  rw [with_slack] at h
  cases hm : version.isMicro with
  | true => rw [hm] at h; simp at h
  | false =>
    rw [hm] at h
    simp only [Bool.false_eq_true, if_false] at h
    cases hcap : capacityLookup version ec with
    | none => rw [hcap] at h; cases h
    | some total =>
      rw [hcap] at h
      dsimp only at h
      by_cases h1 : total < 1 + slack
      · rw [if_pos h1] at h; cases h
      · rw [if_neg h1] at h
        by_cases h2 : total - (1 + slack) = 0
        · rw [if_pos h2] at h; cases h
        · rw [if_neg h2] at h
          exact ⟨total, rfl, rfl, by omega, encodeChunks_ok enc version ec 0 _ cs h⟩

/-- Instrumented variant of `encodeChunks` that additionally records, in call
order, every chunk byte slice handed to the external encoder.  It performs the
same computation as `encodeChunks` (proved by `encodeChunksTrace_fst`); the
second component is the invocation trace. -/
def encodeChunksTrace (enc : Encoder) (version : Version) (ec : EcLevel) :
    Nat → List (List Nat) → Outcome (List (List Nat)) × List (List Nat)
  | _, [] => (.ok [], [])
  | i, p :: ps =>
    match enc ((i % 256) :: p) version ec with
    | some e => (.err e, [(i % 256) :: p])
    | none =>
      match encodeChunksTrace enc version ec (i + 1) ps with
      | (.ok cs, t) => (.ok (((i % 256) :: p) :: cs), ((i % 256) :: p) :: t)
      | (r, t) => (r, ((i % 256) :: p) :: t)

/-- Instrumented variant of `with_slack` recording the encoder invocations. -/
def with_slackTrace (enc : Encoder) (data : List Nat) (version : Version)
    (ec : EcLevel) (slack : Nat) : Outcome (List (List Nat)) × List (List Nat) :=
  if version.isMicro then (.err .InvalidVersion, [])
  else
    match capacityLookup version ec with
    | none => (.panic, [])
    | some total =>
      if total < 1 + slack then (.panic, [])
      else if total - (1 + slack) = 0 then (.panic, [])
      else encodeChunksTrace enc version ec 0 (chunksList (total - (1 + slack)) data)

theorem encodeChunksTrace_fst (enc : Encoder) (version : Version) (ec : EcLevel) :
    ∀ (i : Nat) (ps : List (List Nat)),
      (encodeChunksTrace enc version ec i ps).1 = encodeChunks enc version ec i ps := by
  intro i ps
  induction ps generalizing i with
  | nil => rfl
  | cons p ps ih =>
    rw [encodeChunksTrace, encodeChunks]
    cases henc : enc ((i % 256) :: p) version ec with
    | some e => rfl
    | none =>
      have ih1 := ih (i + 1)
      cases hrec : encodeChunksTrace enc version ec (i + 1) ps with
      | mk r t =>
        rw [hrec] at ih1
        rw [← ih1]
        cases r <;> rfl

theorem with_slackTrace_fst (enc : Encoder) (data : List Nat) (version : Version)
    (ec : EcLevel) (slack : Nat) :
    (with_slackTrace enc data version ec slack).1 = with_slack enc data version ec slack := by
  rw [with_slackTrace, with_slack]
  cases hm : version.isMicro with
  | true => rfl
  | false =>
    simp only [Bool.false_eq_true, if_false]
    cases hcap : capacityLookup version ec with
    | none => rfl
    | some total =>
      dsimp only
      by_cases h1 : total < 1 + slack
      · rw [if_pos h1, if_pos h1]
      · rw [if_neg h1, if_neg h1]
        by_cases h2 : total - (1 + slack) = 0
        · rw [if_pos h2, if_pos h2]
        · rw [if_neg h2, if_neg h2]
          exact encodeChunksTrace_fst enc version ec 0 _

theorem getLastD_listnn_of_ne_nil {l : List (List Nat)} (hl : l ≠ []) (a b : List Nat) :
    l.getLastD a = l.getLastD b := by
  cases l with
  | nil => exact absurd rfl hl
  | cons x xs => rw [List.getLastD_cons, List.getLastD_cons]

theorem dropLast_cons_of_ne_nil {α : Type} (c : α) {l : List α} (hl : l ≠ []) :
    (c :: l).dropLast = c :: l.dropLast := by
  cases l with
  | nil => exact absurd rfl hl
  | cons x xs => rfl

theorem encodeChunksTrace_err (enc : Encoder) (version : Version) (ec : EcLevel) (e : QrError) :
    ∀ (i : Nat) (ps t : List (List Nat)),
      encodeChunksTrace enc version ec i ps = (.err e, t) →
      t ≠ [] ∧
      enc (t.getLastD []) version ec = some e ∧
      (∀ d ∈ t.dropLast, enc d version ec = none) ∧
      t = (tagChunks i ps).take t.length := by
  intro i ps
  induction ps generalizing i with
  | nil => intro t h; rw [encodeChunksTrace] at h; cases h
  | cons p ps ih =>
    intro t h
    rw [encodeChunksTrace] at h
    cases henc : enc ((i % 256) :: p) version ec with
    | some e' =>
      rw [henc] at h
      cases h
      refine ⟨by simp, ?_, by simp, by simp [tagChunks]⟩
      simpa using henc
    | none =>
      rw [henc] at h
      cases hrec : encodeChunksTrace enc version ec (i + 1) ps with
      | mk r t' =>
        rw [hrec] at h
        cases r with
        | ok cs => cases h
        | panic => cases h
        | err e'' =>
          cases h
          obtain ⟨hne, hlast, hpre, htake⟩ := ih (i + 1) t' hrec
          refine ⟨by simp, ?_, ?_, ?_⟩
          · rw [List.getLastD_cons, getLastD_listnn_of_ne_nil hne _ []]
            exact hlast
          · intro d hd
            rw [dropLast_cons_of_ne_nil _ hne] at hd
            rcases List.mem_cons.mp hd with h1 | h1
            · rw [h1]; exact henc
            · exact hpre d h1
          · rw [tagChunks, List.length_cons, List.take_succ_cons, ← htake]

theorem with_slackTrace_err (enc : Encoder) (data : List Nat) (version : Version)
    (ec : EcLevel) (slack : Nat) (e : QrError) (t : List (List Nat)) (total : Nat)
    (hm : version.isMicro = false)
    (hcap : capacityLookup version ec = some total)
    (ht : with_slackTrace enc data version ec slack = (.err e, t)) :
    t ≠ [] ∧
    enc (t.getLastD []) version ec = some e ∧
    (∀ d ∈ t.dropLast, enc d version ec = none) ∧
    t = (tagChunks 0 (chunksList (total - (1 + slack)) data)).take t.length := by
  rw [with_slackTrace, hm] at ht
  simp only [Bool.false_eq_true, if_false] at ht
  rw [hcap] at ht
  dsimp only at ht
  by_cases h1 : total < 1 + slack
  · rw [if_pos h1] at ht; cases ht
  · rw [if_neg h1] at ht
    by_cases h2 : total - (1 + slack) = 0
    · rw [if_pos h2] at ht; cases ht
    · rw [if_neg h2] at ht
      exact encodeChunksTrace_err enc version ec e 0 _ t ht

theorem with_slack_ok_idxMap (enc : Encoder) (data : List Nat) (version : Version)
    (ec : EcLevel) (slack : Nat) (cs : List (List Nat))
    (h : with_slack enc data version ec slack = .ok cs) :
    cs.map chunkIdx = (List.range' 0 cs.length).map (fun k => k % 256) := by
  obtain ⟨total, hm, hcap, hlt, hcs⟩ := with_slack_ok enc data version ec slack cs h
  rw [hcs, tagChunks_map_chunkIdx, tagChunks_length]

theorem range'_map_mod (m : Nat) (hm : m ≤ 256) :
    (List.range' 0 m).map (fun k => k % 256) = List.range' 0 m := by
  have hcong : ∀ a ∈ List.range' 0 m, a % 256 = a := by
    intro a ha
    rw [List.mem_range'] at ha
    obtain ⟨i, hi, hai⟩ := ha
    omega
  rw [List.map_congr_left hcong, List.map_id']

example : with_slack encAll [] (.Normal 1) .L 0 = .ok [] := by decide

example : with_slack encAll [1, 2] (.Micro 1) .L 0 = .err .InvalidVersion := by decide

example : with_slack encAll [1, 2] (.Normal 41) .L 0 = .panic := by decide

example : with_slack encAll [1, 2] (.Normal 1) .L 18 = .panic := by decide

example : with_slack encAll [1, 2] (.Normal 1) .L 19 = .panic := by decide

example : new encAll [1, 2] (.Micro 1) .L = .panic := by decide

example : new encAll [1, 2] (.Normal 1) .L = .ok [[0, 1, 2]] := by decide

/-- C1 (amended): for every call of `with_slack` that returns success,
concatenating the data portions (all bytes after the leading index byte) of
the returned chunks in return order reproduces the payload byte-for-byte, and
whenever at most 256 chunks are returned the return order is ascending index
order, so concatenating in ascending index order (stable sort by index byte)
also reproduces the payload exactly, with no gaps or overlaps.  The
unrestricted original claim fails once more than 256 chunks are produced,
because the one-byte index wraps (see `C1_sorted_concat_counterexample`). -/
theorem C1_partition_correctness (enc : Encoder) (data : List Nat) (version : Version)
    (ec : EcLevel) (slack : Nat) (cs : List (List Nat))
    (h : with_slack enc data version ec slack = .ok cs) :
    (cs.map List.tail).flatten = data ∧
      (cs.length ≤ 256 → ((sortByIdx cs).map List.tail).flatten = data) := by
  obtain ⟨total, hm, hcap, hlt, hcs⟩ := with_slack_ok enc data version ec slack cs h
  have hn : 1 ≤ total - (1 + slack) := by omega
  have hflat : (chunksList (total - (1 + slack)) data).flatten = data := by
    rw [chunksList]
    exact chunksFuel_flatten _ hn data.length data le_rfl
  have hpart : (cs.map List.tail).flatten = data := by
    rw [hcs, tagChunks_map_tail_flatten, hflat]
  refine ⟨hpart, fun hlen => ?_⟩
  have hmap : cs.map chunkIdx = List.range' 0 cs.length :=
    (with_slack_ok_idxMap enc data version ec slack cs h).trans (range'_map_mod _ hlen)
  have hpw : cs.Pairwise (fun a b => chunkIdx a ≤ chunkIdx b) := by
    apply List.pairwise_map.mp
    rw [hmap, ← List.range_eq_range']
    exact List.pairwise_le_range _
  rw [sortByIdx_of_pairwise cs hpw]
  exact hpart

/-- Witness for `C1_partition_correctness` at version 1, EC L, slack 16 and
payload `[5, 6, 7]` (per-chunk data size 2, two chunks). -/
theorem C1_partition_correctness_witness :
    (([[0, 5, 6], [1, 7]] : List (List Nat)).map List.tail).flatten = [5, 6, 7] ∧
      (([[0, 5, 6], [1, 7]] : List (List Nat)).length ≤ 256 →
        ((sortByIdx [[0, 5, 6], [1, 7]]).map List.tail).flatten = [5, 6, 7]) :=
  C1_partition_correctness encAll [5, 6, 7] (.Normal 1) .L 16 [[0, 5, 6], [1, 7]] (by decide)

/-- Counterexample to C1 as stated: at version 1, EC L, slack 17 the 257-byte
payload `bigPayload` succeeds (the encoder accepts every chunk), yet
concatenating the data portions in ascending index order does not reproduce
the payload: chunk 256's index byte has wrapped to 0, so its data byte sorts
next to chunk 0's instead of coming last. -/
theorem C1_sorted_concat_counterexample :
    (with_slack encAll bigPayload (.Normal 1) .L 17).isOk = true ∧
      ((sortByIdx (with_slack encAll bigPayload (.Normal 1) .L 17).codes).map
          List.tail).flatten ≠ bigPayload := by
  refine ⟨by decide, by decide⟩

/-- C2 (amended): with positive per-chunk data capacity, `with_slack` on a
zero-length payload succeeds but returns zero chunks, not one: Rust's
`chunks` iterator on an empty slice is empty, so the encode loop never runs.
The original claim of exactly one chunk with index byte 0 fails (see
`C2_single_chunk_counterexample`). -/
theorem C2_empty_payload_zero_chunks (enc : Encoder) (version : Version)
    (ec : EcLevel) (slack : Nat) (total : Nat)
    (hm : version.isMicro = false)
    (hcap : capacityLookup version ec = some total)
    (hs : 1 + slack < total) :
    with_slack enc [] version ec slack = .ok [] := by
  rw [with_slack, hm]
  simp only [Bool.false_eq_true, if_false]
  rw [hcap]
  dsimp only
  rw [if_neg (by omega), if_neg (by omega)]
  rfl

/-- Witness for `C2_empty_payload_zero_chunks` at version 1, EC L, slack 0. -/
theorem C2_empty_payload_zero_chunks_witness :
    with_slack encAll [] (.Normal 1) .L 0 = .ok [] :=
  C2_empty_payload_zero_chunks encAll (.Normal 1) .L 0 19 (by decide) (by decide) (by decide)

/-- Counterexample to C2 as stated: at version 1, EC L, slack 0 (per-chunk
data size 18 > 0) the empty payload succeeds with zero chunks, not exactly
one. -/
theorem C2_single_chunk_counterexample :
    (with_slack encAll [] (.Normal 1) .L 0).isOk = true ∧
      (with_slack encAll [] (.Normal 1) .L 0).codes.length = 0 := by
  refine ⟨by decide, by decide⟩

/-- C3 (code bug): the specification demands failing with `TooManyChunks`,
with no encoder invocation, once the payload needs more than 256 chunks; the
code instead silently wraps the chunk counter through the narrowing cast
`i as u8`.  Concretely, at version 1, EC L, slack 17 (per-chunk data size 1)
the 257-byte `bigPayload` succeeds with 257 chunks, and chunk 256 carries
index byte 0, aliasing chunk 0. -/
theorem C3_index_byte_wraps :
    bigPayload.length = 257 ∧
      (with_slack encAll bigPayload (.Normal 1) .L 17).isOk = true ∧
      (with_slack encAll bigPayload (.Normal 1) .L 17).codes.length = 257 ∧
      (with_slack encAll bigPayload (.Normal 1) .L 17).codes.getD 256 [] = [0, 1] ∧
      (with_slack encAll bigPayload (.Normal 1) .L 17).codes.getD 0 [] = [0, 0] := by
  refine ⟨by decide, by decide, by decide, by decide, by decide⟩

/-- C4 (amended): when `slack + 1 ≥ capacity` (per-chunk data size zero or
negative) `with_slack` does not return an `InsufficientCapacity` error — no
such variant exists in `QrError` — it panics: the `usize` subtraction
underflows when `slack + 1 > capacity`, and `data.chunks(0)` panics when they
are equal.  The outcome is `panic` for every encoder `enc`, so the external
encoder is never invoked. -/
theorem C4_insufficient_capacity_panics (enc : Encoder) (data : List Nat)
    (version : Version) (ec : EcLevel) (slack : Nat) (total : Nat)
    (hm : version.isMicro = false)
    (hcap : capacityLookup version ec = some total)
    (hs : total ≤ 1 + slack) :
    with_slack enc data version ec slack = .panic := by
  rw [with_slack, hm]
  simp only [Bool.false_eq_true, if_false]
  rw [hcap]
  dsimp only
  by_cases h1 : total < 1 + slack
  · rw [if_pos h1]
  · rw [if_neg h1, if_pos (by omega)]

/-- Witness for `C4_insufficient_capacity_panics` at version 1, EC L, slack 19
(capacity 19, so per-chunk data size would be negative). -/
theorem C4_insufficient_capacity_panics_witness :
    with_slack encAll [1, 2] (.Normal 1) .L 19 = .panic :=
  C4_insufficient_capacity_panics encAll [1, 2] (.Normal 1) .L 19 19
    (by decide) (by decide) (by decide)

/-- Counterexample to C4 as stated: with capacity 19 at version 1, EC L, both
slack 19 (negative per-chunk size) and slack 18 (zero per-chunk size) make the
call panic; no error value at all is returned, in particular no
`InsufficientCapacity`. -/
theorem C4_no_error_counterexample :
    with_slack encAll [1, 2] (.Normal 1) .L 19 = .panic ∧
      (with_slack encAll [1, 2] (.Normal 1) .L 19).isErr = false ∧
      with_slack encAll [1, 2] (.Normal 1) .L 18 = .panic ∧
      (with_slack encAll [1, 2] (.Normal 1) .L 18).isErr = false := by
  refine ⟨by decide, by decide, by decide, by decide⟩

/-- C5 (amended): a `Normal` size class outside the 40 supported tiers does
not yield an `InvalidSizeClass` error — no such variant exists in `QrError` —
instead the table index `version.to_index()` falls outside the 40 rows and the
capacity lookup (hence `with_slack`) panics.  An `ecStrength` outside the four
defined strengths is unrepresentable: `EcLevel` has exactly four variants,
with discriminants 0-3. -/
theorem C5_out_of_range_version_panics (x : Int) (enc : Encoder) (data : List Nat)
    (ec : EcLevel) (slack : Nat)
    (hlo : -32768 ≤ x) (hhi : x ≤ 32767) (hout : x < 1 ∨ 40 < x) :
    capacityLookup (.Normal x) ec = none ∧
      with_slack enc data (.Normal x) ec slack = .panic ∧
      ec.toNat < 4 := by
  have hidx : ¬ Version.to_index (.Normal x) < 40 := by
    simp only [Version.to_index, usize_cast]
    omega
  have hlen : QR_DATA_LENGTHS.length = 40 := rfl
  have hcap : capacityLookup (.Normal x) ec = none := by
    rw [capacityLookup, hlen, if_neg hidx]
  refine ⟨hcap, ?_, by cases ec <;> decide⟩
  have hm : Version.isMicro (.Normal x) = false := rfl
  rw [with_slack, hm]
  simp only [Bool.false_eq_true, if_false]
  rw [hcap]

/-- Witness for `C5_out_of_range_version_panics` at the out-of-range size
class `Normal 41`. -/
theorem C5_out_of_range_version_panics_witness :
    capacityLookup (.Normal 41) .L = none ∧
      with_slack encAll [1, 2] (.Normal 41) .L 0 = .panic ∧
      EcLevel.toNat .L < 4 :=
  C5_out_of_range_version_panics 41 encAll [1, 2] .L 0
    (by decide) (by decide) (Or.inr (by decide))

/-- Counterexample to C5 as stated: both `Normal 41` and `Normal 0` make
`with_slack` panic on the out-of-bounds table index; no error value at all is
returned, in particular no `InvalidSizeClass`. -/
theorem C5_no_error_counterexample :
    with_slack encAll [1, 2] (.Normal 41) .L 0 = .panic ∧
      (with_slack encAll [1, 2] (.Normal 41) .L 0).isErr = false ∧
      with_slack encAll [1, 2] (.Normal 0) .L 0 = .panic ∧
      (with_slack encAll [1, 2] (.Normal 0) .L 0).isErr = false := by
  refine ⟨by decide, by decide, by decide, by decide⟩

/-- C6 (amended): for every successful call the index bytes in return order
are the chunk positions reduced modulo 256; whenever at most 256 chunks are
returned they form the contiguous sequence 0, 1, 2, … with no gaps and no
repeats.  With more than 256 chunks the one-byte counter wraps and indices
repeat (see `C6_repeated_index_counterexample`). -/
theorem C6_index_contiguity (enc : Encoder) (data : List Nat) (version : Version)
    (ec : EcLevel) (slack : Nat) (cs : List (List Nat))
    (h : with_slack enc data version ec slack = .ok cs) :
    cs.map chunkIdx = (List.range cs.length).map (fun k => k % 256) ∧
      (cs.length ≤ 256 → cs.map chunkIdx = List.range cs.length) := by
  have h1 := with_slack_ok_idxMap enc data version ec slack cs h
  rw [List.range_eq_range']
  exact ⟨h1, fun hlen => h1.trans (range'_map_mod _ hlen)⟩

/-- Witness for `C6_index_contiguity` at version 1, EC L, slack 16 and
payload `[5, 6, 7]`. -/
theorem C6_index_contiguity_witness :
    ([[0, 5, 6], [1, 7]] : List (List Nat)).map chunkIdx =
        (List.range ([[0, 5, 6], [1, 7]] : List (List Nat)).length).map (fun k => k % 256) ∧
      (([[0, 5, 6], [1, 7]] : List (List Nat)).length ≤ 256 →
        ([[0, 5, 6], [1, 7]] : List (List Nat)).map chunkIdx =
          List.range ([[0, 5, 6], [1, 7]] : List (List Nat)).length) :=
  C6_index_contiguity encAll [5, 6, 7] (.Normal 1) .L 16 [[0, 5, 6], [1, 7]] (by decide)

/-- Counterexample to C6 as stated: the successful 257-chunk run on
`bigPayload` has index bytes 0, 1, …, 255, 0 — not the contiguous sequence
0, 1, 2, …: chunk 256 repeats chunk 0's index byte. -/
theorem C6_repeated_index_counterexample :
    (with_slack encAll bigPayload (.Normal 1) .L 17).isOk = true ∧
      (with_slack encAll bigPayload (.Normal 1) .L 17).codes.map chunkIdx ≠
        List.range (with_slack encAll bigPayload (.Normal 1) .L 17).codes.length ∧
      chunkIdx ((with_slack encAll bigPayload (.Normal 1) .L 17).codes.getD 256 []) =
        chunkIdx ((with_slack encAll bigPayload (.Normal 1) .L 17).codes.getD 0 []) := by
  refine ⟨by decide, by decide, by decide⟩

/-- C7 (confirmed): for every successful call of `with_slack`, every produced
chunk's total byte length (index byte plus data bytes) is at most
`capacity(sizeClass, ecStrength) - slack`. -/
theorem C7_capacity_bound (enc : Encoder) (data : List Nat) (version : Version)
    (ec : EcLevel) (slack : Nat) (cs : List (List Nat)) (total : Nat) (c : List Nat)
    (h : with_slack enc data version ec slack = .ok cs)
    (hcap : capacityLookup version ec = some total)
    (hc : c ∈ cs) : c.length ≤ total - slack := by
  obtain ⟨total', hm, hcap', hlt, hcs⟩ := with_slack_ok enc data version ec slack cs h
  rw [hcap] at hcap'
  obtain rfl : total = total' := Option.some.inj hcap'
  rw [hcs] at hc
  obtain ⟨p, hp, hclen⟩ := tagChunks_mem_length 0 _ c hc
  rw [chunksList] at hp
  have hple : p.length ≤ total - (1 + slack) :=
    chunksFuel_length_le _ data.length data p hp
  omega

/-- Witness for `C7_capacity_bound` at version 1, EC L, slack 16: the chunk
`[0, 5, 6]` has length 3 = 19 - 16. -/
theorem C7_capacity_bound_witness :
    ([0, 5, 6] : List Nat).length ≤ 19 - 16 :=
  C7_capacity_bound encAll [5, 6, 7] (.Normal 1) .L 16 [[0, 5, 6], [1, 7]] 19 [0, 5, 6]
    (by decide) (by decide) (by decide)

/-- C8 (amended): when the external encoder rejects a chunk, `with_slack`
stops at the first failure and propagates the encoder's own error value — the
bare cause, not an `EncodingFailed { chunkIndex, cause }` wrapper: no such
variant exists in `QrError`, and the propagated value does not determine the
failing chunk's index (see `C8_no_chunk_index_counterexample`).  The
invocation trace certifies the rest of the claim: the last invoked chunk is
the rejected one with cause `e`, every earlier invoked chunk was accepted
(first failure), the trace is an initial segment of the full chunk list (no
chunk after the failing one is attempted), and the result carries no partial
chunk list (all-or-nothing). -/
theorem C8_first_failure_propagation (enc : Encoder) (data : List Nat)
    (version : Version) (ec : EcLevel) (slack : Nat) (e : QrError) (total : Nat)
    (hm : version.isMicro = false)
    (hcap : capacityLookup version ec = some total)
    (h : with_slack enc data version ec slack = .err e) :
    (with_slackTrace enc data version ec slack).1 = .err e ∧
      (with_slackTrace enc data version ec slack).2 ≠ [] ∧
      enc ((with_slackTrace enc data version ec slack).2.getLastD []) version ec = some e ∧
      (∀ d ∈ (with_slackTrace enc data version ec slack).2.dropLast,
        enc d version ec = none) ∧
      (with_slackTrace enc data version ec slack).2 =
        (tagChunks 0 (chunksList (total - (1 + slack)) data)).take
          (with_slackTrace enc data version ec slack).2.length := by
  have hfst : (with_slackTrace enc data version ec slack).1 = .err e :=
    (with_slackTrace_fst enc data version ec slack).trans h
  have hpair : with_slackTrace enc data version ec slack =
      (.err e, (with_slackTrace enc data version ec slack).2) := by
    rw [← hfst]
  obtain ⟨h1, h2, h3, h4⟩ :=
    with_slackTrace_err enc data version ec slack e _ total hm hcap hpair
  exact ⟨hfst, h1, h2, h3, h4⟩

/-- Witness for `C8_first_failure_propagation`: the encoder rejecting on data
byte 9 fails on the single chunk of payload `[9]` at version 1, EC L,
slack 16. -/
theorem C8_first_failure_propagation_witness :
    (with_slackTrace encRejects9 [9] (.Normal 1) .L 16).1 = .err .DataTooLong ∧
      (with_slackTrace encRejects9 [9] (.Normal 1) .L 16).2 ≠ [] ∧
      encRejects9 ((with_slackTrace encRejects9 [9] (.Normal 1) .L 16).2.getLastD [])
          (.Normal 1) .L = some .DataTooLong ∧
      (∀ d ∈ (with_slackTrace encRejects9 [9] (.Normal 1) .L 16).2.dropLast,
        encRejects9 d (.Normal 1) .L = none) ∧
      (with_slackTrace encRejects9 [9] (.Normal 1) .L 16).2 =
        (tagChunks 0 (chunksList (19 - (1 + 16)) [9])).take
          (with_slackTrace encRejects9 [9] (.Normal 1) .L 16).2.length :=
  C8_first_failure_propagation encRejects9 [9] (.Normal 1) .L 16 .DataTooLong 19
    (by decide) (by decide) (by decide)

/-- Counterexample to C8 as stated: the propagated failure is the bare
`QrError` cause and carries no chunk index.  The same encoder rejecting on
data byte 9 fails at chunk index 0 on payload `[9]` (one invocation) and at
chunk index 1 on payload `[0, 0, 9]` (two invocations), yet `with_slack`
returns the identical error value `DataTooLong` in both runs, so no
`chunkIndex` is recoverable from the propagated failure. -/
theorem C8_no_chunk_index_counterexample :
    with_slack encRejects9 [9] (.Normal 1) .L 16 = .err .DataTooLong ∧
      with_slack encRejects9 [0, 0, 9] (.Normal 1) .L 16 = .err .DataTooLong ∧
      (with_slackTrace encRejects9 [9] (.Normal 1) .L 16).2.length = 1 ∧
      (with_slackTrace encRejects9 [0, 0, 9] (.Normal 1) .L 16).2.length = 2 := by
  refine ⟨by decide, by decide, by decide, by decide⟩

/-- C9 (confirmed): the 40×4 capacity table `QR_DATA_LENGTHS` is monotone —
non-decreasing down each EC column as the size class grows, and non-increasing
across each row as the EC strength goes from weakest (L, column 0) to
strongest (H, column 3). -/
theorem C9_table_monotone :
    (∀ i : Fin 39, ∀ j : Fin 4,
        (QR_DATA_LENGTHS.getD i.val []).getD j.val 0 ≤
          (QR_DATA_LENGTHS.getD (i.val + 1) []).getD j.val 0) ∧
      (∀ i : Fin 40, ∀ j : Fin 3,
        (QR_DATA_LENGTHS.getD i.val []).getD (j.val + 1) 0 ≤
          (QR_DATA_LENGTHS.getD i.val []).getD j.val 0) := by
  decide

/-- C10 (confirmed): for every Micro version 1-4 and every payload, `new`
never returns the `InvalidVersion` error that `with_slack` would produce for
the Micro family: the argument `QR_VERSION_SLACK[version.to_index()]` is
evaluated first, `to_index` maps Micro 1-4 to 40-43, and indexing the
40-entry slack table panics before `with_slack`'s Micro rejection can run. -/
theorem C10_new_micro_panics (x : Int) (enc : Encoder) (data : List Nat) (ec : EcLevel)
    (h1 : 1 ≤ x) (h4 : x ≤ 4) :
    Version.to_index (.Micro x) = (x + 39).toNat ∧
      40 ≤ Version.to_index (.Micro x) ∧
      QR_VERSION_SLACK.length = 40 ∧
      new enc data (.Micro x) ec = .panic ∧
      (new enc data (.Micro x) ec).isErr = false := by
  have hidx : Version.to_index (.Micro x) = (x + 39).toNat := by
    simp only [Version.to_index, usize_cast]
    omega
  have h40 : 40 ≤ Version.to_index (.Micro x) := by rw [hidx]; omega
  have hlen : QR_VERSION_SLACK.length = 40 := rfl
  have hnew : new enc data (.Micro x) ec = .panic := by
    rw [new, hlen, if_neg (by omega)]
  exact ⟨hidx, h40, hlen, hnew, by rw [hnew]; rfl⟩

/-- Witness for `C10_new_micro_panics` at Micro version 1. -/
theorem C10_new_micro_panics_witness :
    Version.to_index (.Micro 1) = ((1 : Int) + 39).toNat ∧
      40 ≤ Version.to_index (.Micro 1) ∧
      QR_VERSION_SLACK.length = 40 ∧
      new encAll [1, 2] (.Micro 1) .L = .panic ∧
      (new encAll [1, 2] (.Micro 1) .L).isErr = false :=
  C10_new_micro_panics 1 encAll [1, 2] .L (by decide) (by decide)

end Mqrcode
